import Mathlib

/-!
Verification of the BDGD–CNPJ entity-resolution engine.

This file is a shallow embedding, in Lean 4, of the core algorithms of the
repository:

* the text normalizer `normalizar_texto` and its helpers
  (`src/backend/scripts/match_bdgd_cnpj.py`, and the identical
  `_normalizar_texto` of `src/backend/app/services/refine_service.py`);
* the multi-criteria scorer `_score_endereco` plus the CNAE score and the
  dual-source candidate scoring of `executar_matching` / `refine_clientes`;
* the ranker (stable descending sort by `score_total`, top N, ranks 1..k);
* the match-table transaction traces of `executar_matching` (truncate, then
  batched inserts) and of `RefineService.refine_clientes` (per-client
  delete-then-insert inside one transaction);
* the geocode step-4 loop of `refine_clientes` (one external call per pending
  rounded-coordinate bucket, cache upsert on success only);
* the Bulk Loader (`src/cnpj/loader.py`): `prescan_estabelecimentos`,
  `load_simples_filtered` (MEI subset), `load_estabelecimentos` (filter and
  direct batched insert into `cnpj_cache`).

Python strings are modelled as `List Char` (`Str`), faithful on the ASCII
fragment; nullable DB fields as `Option Str`; Python float scores as `ℚ` with
`round(x, 2)` modelled as round-half-to-even on hundredths.
-/

/-- Python strings, modelled as lists of characters. -/
abbrev Str := List Char

/-- Python `\s` (ASCII fragment): the whitespace characters. -/
def pyIsSpace (c : Char) : Bool :=
  c = ' ' || c = '\t' || c = '\n' || c = '\r' || c = '\x0b' || c = '\x0c'

/-- Python `\d` (ASCII fragment): the decimal digits `'0'..'9'` (code points 48–57). -/
def pyIsDigit (c : Char) : Bool := 48 ≤ c.toNat && c.toNat ≤ 57

/-- Python `\w` (ASCII fragment): letters (65–90, 97–122), digits, underscore. -/
def pyIsWord (c : Char) : Bool :=
  (65 ≤ c.toNat && c.toNat ≤ 90) || (97 ≤ c.toNat && c.toNat ≤ 122) || pyIsDigit c || c = '_'

/-- Python `str.upper` on a single character (ASCII fragment):
lower-case letters (97–122) are shifted down by 32, all else is unchanged. -/
def pyUpperChar (c : Char) : Char :=
  if 97 ≤ c.toNat && c.toNat ≤ 122 then Char.ofNat (c.toNat - 32) else c

/-- Python `str.strip()`: drop leading and trailing whitespace. -/
def pyStrip (s : Str) : Str := (s.dropWhile pyIsSpace).rdropWhile pyIsSpace

/-- Collapse consecutive `' '` characters into a single one
(the run-collapsing part of `re.sub(r"\s+", " ", t)`). -/
def squeezeSpaces : Str → Str
  | [] => []
  | [c] => [c]
  | a :: b :: t =>
    if a = ' ' && b = ' ' then squeezeSpaces (b :: t)
    else a :: squeezeSpaces (b :: t)

/-- `re.sub(r"[^\w\s]", " ", t)`: replace every character that is neither a
word character nor whitespace by a single space. -/
def subNonWordSpace (s : Str) : Str :=
  s.map fun c => if pyIsWord c || pyIsSpace c then c else ' '

/-- Map every whitespace character to `' '`; together with `squeezeSpaces`
this is exactly `re.sub(r"\s+", " ", t)`. -/
def spacesToBlank (s : Str) : Str :=
  s.map fun c => if pyIsSpace c then ' ' else c

/-- The normalization pipeline body of `normalizar_texto`:
`strip`, `upper`, `re.sub(r"[^\w\s]", " ", ·)`, `re.sub(r"\s+", " ", ·)`, `strip`. -/
def normalizePipeline (s : Str) : Str :=
  pyStrip (squeezeSpaces (spacesToBlank (subNonWordSpace ((pyStrip s).map pyUpperChar))))

/-- `normalizar_texto` of `match_bdgd_cnpj.py` (identical to
`_normalizar_texto` of `refine_service.py`): `None` for empty input, else the
pipeline result, and `None` again if that result is empty (`return t or None`). -/
def normalizarTexto (texto : Str) : Option Str :=
  if texto = [] then none
  else if normalizePipeline texto = [] then none
  else some (normalizePipeline texto)

/-- Lift of `normalizar_texto` to a possibly-`None` argument: Python returns
`None` when the argument itself is `None` (the `if not texto` branch). -/
def normalizarTextoOpt (texto : Option Str) : Option Str :=
  match texto with
  | none => none
  | some s => normalizarTexto s

example : normalizarTexto "  rua: das    Flores!! ".toList = some "RUA DAS FLORES".toList := by
  decide

example : normalizarTexto "..".toList = none := by decide

-- ### Character-level facts

theorem pyUpperChar_idem (c : Char) : pyUpperChar (pyUpperChar c) = pyUpperChar c := by
  by_cases h : (97 ≤ c.toNat && c.toNat ≤ 122) = true
  · rw [Bool.and_eq_true, decide_eq_true_iff, decide_eq_true_iff] at h
    obtain ⟨n, rfl, h1, h2⟩ : ∃ n, c = Char.ofNat n ∧ 97 ≤ n ∧ n ≤ 122 :=
      ⟨c.toNat, (Char.ofNat_toNat c).symm, h.1, h.2⟩
    interval_cases n <;> decide
  · have hc : pyUpperChar c = c := by unfold pyUpperChar; rw [if_neg h]
    rw [hc, hc]

theorem space_not_word {c : Char} (h : pyIsSpace c = true) : pyIsWord c = false := by
  unfold pyIsSpace at h
  simp only [Bool.or_eq_true, decide_eq_true_iff] at h
  rcases h with ((((h | h) | h) | h) | h) | h <;> subst h <;> decide

theorem word_not_space {c : Char} (h : pyIsWord c = true) : pyIsSpace c = false := by
  by_contra hs
  rw [Bool.not_eq_false] at hs
  rw [space_not_word hs] at h
  exact Bool.false_ne_true h

-- ### Membership facts for the pipeline stages

theorem mem_squeezeSpaces {c : Char} : ∀ {l : Str}, c ∈ squeezeSpaces l → c ∈ l
  | [], h => h
  | [_], h => h
  | a :: b :: t, h => by
    rw [squeezeSpaces] at h
    split at h
    · exact List.mem_cons_of_mem a (mem_squeezeSpaces h)
    · rcases List.mem_cons.mp h with h | h
      · exact h ▸ List.mem_cons_self a (b :: t)
      · exact List.mem_cons_of_mem a (mem_squeezeSpaces h)

theorem pyStrip_sublist (l : Str) : (pyStrip l).Sublist l := by
  unfold pyStrip
  exact ((List.rdropWhile_prefix pyIsSpace (l.dropWhile pyIsSpace)).sublist).trans
    ((List.dropWhile_suffix pyIsSpace).sublist)

theorem mem_pyStrip {c : Char} {l : Str} (h : c ∈ pyStrip l) : c ∈ l :=
  (pyStrip_sublist l).subset h

-- ### `Chain'` facts: no two consecutive `' '` characters

/-- No two consecutive `' '` characters. -/
def NoDoubleSpace (l : Str) : Prop := List.Chain' (fun a b => ¬(a = ' ' ∧ b = ' ')) l

theorem head?_squeezeSpaces (b : Char) (t : Str) :
    (squeezeSpaces (b :: t)).head? = some b := by
  induction t generalizing b with
  | nil => rfl
  | cons c t ih =>
    rw [squeezeSpaces]
    split
    · rename_i h
      rw [Bool.and_eq_true, decide_eq_true_iff, decide_eq_true_iff] at h
      rw [ih c, h.1, h.2]
    · rfl

theorem noDoubleSpace_squeezeSpaces : ∀ l : Str, NoDoubleSpace (squeezeSpaces l)
  | [] => List.chain'_nil
  | [c] => List.chain'_singleton c
  | a :: b :: t => by
    rw [squeezeSpaces]
    split
    · exact noDoubleSpace_squeezeSpaces (b :: t)
    · rename_i h
      rw [Bool.and_eq_true] at h
      refine List.chain'_cons'.mpr ⟨?_, noDoubleSpace_squeezeSpaces (b :: t)⟩
      intro y hy
      rw [head?_squeezeSpaces b t] at hy
      cases hy
      intro hab
      exact h ⟨decide_eq_true_iff.mpr hab.1, decide_eq_true_iff.mpr hab.2⟩

theorem squeezeSpaces_eq_self : ∀ {l : Str}, NoDoubleSpace l → squeezeSpaces l = l
  | [], _ => rfl
  | [_], _ => rfl
  | a :: b :: t, h => by
    rw [squeezeSpaces]
    have hab : ¬(a = ' ' ∧ b = ' ') := (List.chain'_cons.mp h).1
    rw [if_neg (by simpa using hab)]
    rw [squeezeSpaces_eq_self (List.chain'_cons.mp h).2]

theorem pyStrip_decomp (l : Str) : ∃ s t, s ++ pyStrip l ++ t = l := by
  obtain ⟨t, ht⟩ := List.rdropWhile_prefix pyIsSpace (l.dropWhile pyIsSpace)
  obtain ⟨s, hs⟩ :=
    (List.dropWhile_suffix pyIsSpace : List.dropWhile pyIsSpace l <:+ l)
  refine ⟨s, t, ?_⟩
  unfold pyStrip
  rw [List.append_assoc, ht, hs]

theorem noDoubleSpace_pyStrip {l : Str} (h : NoDoubleSpace l) : NoDoubleSpace (pyStrip l) :=
  List.Chain'.infix h (pyStrip_decomp l)

-- ### `pyStrip` is idempotent

theorem head?_dropWhile_false {p : Char → Bool} {c : Char} :
    ∀ {l : Str}, (l.dropWhile p).head? = some c → p c = false
  | [], h => by simp at h
  | x :: xs, h => by
    rw [List.dropWhile_cons] at h
    split at h
    · exact head?_dropWhile_false h
    · cases h
      rename_i hx
      exact Bool.not_eq_true _ ▸ hx

theorem dropWhile_eq_self_of_head? {p : Char → Bool} {l : Str}
    (h : ∀ c, l.head? = some c → p c = false) : l.dropWhile p = l := by
  cases l with
  | nil => rfl
  | cons x xs =>
    rw [List.dropWhile_cons, if_neg]
    rw [h x rfl]
    exact Bool.false_ne_true

theorem pyStrip_idem (l : Str) : pyStrip (pyStrip l) = pyStrip l := by
  unfold pyStrip
  have hdrop : (((l.dropWhile pyIsSpace).rdropWhile pyIsSpace).dropWhile pyIsSpace)
      = (l.dropWhile pyIsSpace).rdropWhile pyIsSpace := by
    apply dropWhile_eq_self_of_head?
    intro c hc
    have hne : (l.dropWhile pyIsSpace).rdropWhile pyIsSpace ≠ [] := by
      intro hnil
      rw [hnil] at hc
      exact (Option.some_ne_none c hc.symm).elim
    obtain ⟨t, ht⟩ := List.rdropWhile_prefix pyIsSpace (l.dropWhile pyIsSpace)
    have hhead : (l.dropWhile pyIsSpace).head? = some c := by
      rw [← ht]
      cases hk : (l.dropWhile pyIsSpace).rdropWhile pyIsSpace with
      | nil => exact (hne hk).elim
      | cons y ys =>
        rw [hk] at hc
        cases hc
        rfl
    exact head?_dropWhile_false hhead
  rw [hdrop, List.rdropWhile_idempotent]

-- ### Characters of the pipeline output

/-- The invariant satisfied by every character of a normalized string:
it is a word character or a single blank, and it is fixed by upper-casing. -/
def NormChar (c : Char) : Prop := (pyIsWord c = true ∨ c = ' ') ∧ pyUpperChar c = c

theorem normChar_blank : NormChar ' ' := ⟨Or.inr rfl, by decide⟩

theorem normChar_stage (s : Str) :
    ∀ c ∈ spacesToBlank (subNonWordSpace ((pyStrip s).map pyUpperChar)), NormChar c := by
  intro c hc
  unfold spacesToBlank subNonWordSpace at hc
  rw [List.map_map, List.map_map] at hc
  obtain ⟨a, _, ha⟩ := List.mem_map.mp hc
  simp only [Function.comp] at ha
  by_cases hw : (pyIsWord (pyUpperChar a) || pyIsSpace (pyUpperChar a)) = true
  · rw [if_pos hw] at ha
    by_cases hs : pyIsSpace (pyUpperChar a) = true
    · rw [if_pos hs] at ha
      exact ha ▸ normChar_blank
    · rw [if_neg hs] at ha
      subst ha
      refine ⟨Or.inl ?_, pyUpperChar_idem a⟩
      rcases Bool.or_eq_true _ _ |>.mp hw with h | h
      · exact h
      · exact (hs h).elim
  · rw [if_neg hw] at ha
    rw [if_pos (show pyIsSpace ' ' = true by decide)] at ha
    exact ha ▸ normChar_blank

theorem normChar_pipeline (s : Str) : ∀ c ∈ normalizePipeline s, NormChar c := by
  intro c hc
  unfold normalizePipeline at hc
  exact normChar_stage s c (mem_squeezeSpaces (mem_pyStrip hc))

theorem noDoubleSpace_pipeline (s : Str) : NoDoubleSpace (normalizePipeline s) := by
  unfold normalizePipeline
  exact noDoubleSpace_pyStrip (noDoubleSpace_squeezeSpaces _)

theorem pyStrip_pipeline (s : Str) : pyStrip (normalizePipeline s) = normalizePipeline s := by
  unfold normalizePipeline
  rw [pyStrip_idem]

theorem map_fixed {f : Char → Char} : ∀ {l : Str}, (∀ c ∈ l, f c = c) → l.map f = l
  | [], _ => rfl
  | c :: t, h => by
    rw [List.map_cons, h c (List.mem_cons_self c t),
      map_fixed fun d hd => h d (List.mem_cons_of_mem c hd)]

theorem map_pyUpperChar_fixed {l : Str} (h : ∀ c ∈ l, NormChar c) :
    l.map pyUpperChar = l :=
  map_fixed fun c hc => (h c hc).2

theorem subNonWordSpace_fixed {l : Str} (h : ∀ c ∈ l, NormChar c) :
    subNonWordSpace l = l := by
  apply map_fixed
  intro c hc
  rcases (h c hc).1 with hw | hb
  · rw [if_pos (Bool.or_eq_true _ _ |>.mpr (Or.inl hw))]
  · subst hb
    rw [if_pos (by decide)]

theorem spacesToBlank_fixed {l : Str} (h : ∀ c ∈ l, NormChar c) :
    spacesToBlank l = l := by
  apply map_fixed
  intro c hc
  rcases (h c hc).1 with hw | hb
  · rw [if_neg]
    rw [word_not_space hw]
    exact Bool.false_ne_true
  · subst hb
    rfl

theorem pipeline_fixed (s : Str) :
    normalizePipeline (normalizePipeline s) = normalizePipeline s := by
  have hchars := normChar_pipeline s
  have hnds := noDoubleSpace_pipeline s
  have hstrip := pyStrip_pipeline s
  set t := normalizePipeline s with ht
  show pyStrip (squeezeSpaces (spacesToBlank (subNonWordSpace ((pyStrip t).map pyUpperChar)))) = t
  rw [hstrip, map_pyUpperChar_fixed hchars, subNonWordSpace_fixed hchars,
    spacesToBlank_fixed hchars, squeezeSpaces_eq_self hnds, hstrip]

/-- Claim C9: `normalize_text` is idempotent: for every input string `x`,
`normalize_text(normalize_text(x)) == normalize_text(x)`, including the case
where the inner call returns `None` (for empty or all-removed input), which
the outer call maps to `None` again. -/
theorem c9_normalizar_texto_idempotent (s : Str) :
    normalizarTextoOpt (normalizarTexto s) = normalizarTexto s := by
  unfold normalizarTexto
  by_cases h0 : s = []
  · rw [if_pos h0]
    rfl
  · rw [if_neg h0]
    by_cases h1 : normalizePipeline s = []
    · rw [if_pos h1]
      rfl
    · rw [if_neg h1]
      show normalizarTexto (normalizePipeline s) = some (normalizePipeline s)
      unfold normalizarTexto
      rw [if_neg h1, pipeline_fixed]
      rw [if_neg h1]

-- ## Scorer (`_score_endereco`, CNAE score, dual-source candidate scoring)

/-- Python truthiness of a nullable string: `None` and `""` are falsy. -/
def pyTruthy : Option Str → Bool
  | none => false
  | some s => !s.isEmpty

/-- Unwrap a nullable string where the code has already checked truthiness. -/
def optStr (o : Option Str) : Str := o.getD []

/-- `re.sub(r"\D", "", s)`: keep only the decimal digits. -/
def digitsOnly (s : Str) : Str := s.filter pyIsDigit

/-- Python `str.split()` with an accumulator for the current word (reversed):
split on whitespace runs, producing no empty words. -/
def pySplitAux : Str → Str → List Str
  | [], acc => if acc = [] then [] else [acc.reverse]
  | c :: t, acc =>
    if pyIsSpace c then
      (if acc = [] then pySplitAux t [] else acc.reverse :: pySplitAux t [])
    else pySplitAux t (c :: acc)

/-- Python `str.split()` (no separator argument). -/
def pySplit (s : Str) : List Str := pySplitAux s []

/-- `{p for p in s.split() if len(p) > 2}`: the set (here: deduplicated list)
of words of `s` longer than 2 characters. -/
def palavras (s : Str) : List Str :=
  ((pySplit s).filter fun w => decide (w.length > 2)).dedup

/-- `len(A & B)` for deduplicated word lists. -/
def interCount (A B : List Str) : ℕ := (A.filter fun w => decide (w ∈ B)).length

/-- `len(A | B)` for deduplicated word lists. -/
def unionCount (A B : List Str) : ℕ := (A ++ B.filter fun w => decide (w ∉ A)).length

/-- Round to the nearest integer, ties to even (Python `round` / IEEE-754
round-half-to-even, idealized over `ℚ`). -/
def roundHalfEven (q : ℚ) : ℤ :=
  if q - ⌊q⌋ < 1/2 then ⌊q⌋
  else if 1/2 < q - ⌊q⌋ then ⌊q⌋ + 1
  else if 2 ∣ ⌊q⌋ then ⌊q⌋ else ⌊q⌋ + 1

/-- Python `round(x, 2)`, idealized over `ℚ`. -/
def round2 (q : ℚ) : ℚ := (roundHalfEven (q * 100) : ℚ) / 100

/-- CEP component of `_score_endereco`: 40 points for equal postal codes. -/
def sCepOf (cepRef cCep : Option Str) : ℚ :=
  if pyTruthy cepRef && pyTruthy cCep && decide (optStr cepRef = optStr cCep) then 40 else 0

/-- Street component of `_score_endereco`: Jaccard similarity of the
`>2`-character word sets, scaled to 20 points and rounded to 2 decimals. -/
def sEndOf (logrRef cLogr : Option Str) : ℚ :=
  if pyTruthy logrRef && pyTruthy cLogr then
    match normalizarTexto (optStr cLogr) with
    | none => 0
    | some cn =>
      if palavras (optStr logrRef) ≠ [] ∧ palavras cn ≠ [] then
        round2 ((interCount (palavras (optStr logrRef)) (palavras cn) : ℚ) /
          (unionCount (palavras (optStr logrRef)) (palavras cn) : ℚ) * 20)
      else 0
  else 0

/-- House-number component of `_score_endereco`: 10 points when the
reference number equals the digits-only candidate number. -/
def sNumOf (numRef cNum : Option Str) : ℚ :=
  if pyTruthy numRef && pyTruthy cNum && decide (optStr numRef = digitsOnly (optStr cNum))
  then 10 else 0

/-- Neighborhood component of `_score_endereco`: 5 points for an exact match,
else word-overlap count over the larger word-set size, scaled to 5 points. -/
def sBrrOf (bairroRef cBairro : Option Str) : ℚ :=
  if pyTruthy bairroRef && pyTruthy cBairro then
    match normalizarTexto (optStr cBairro) with
    | none => 0
    | some cb =>
      if optStr bairroRef = cb then 5
      else
        if palavras (optStr bairroRef) ≠ [] ∧ palavras cb ≠ [] then
          if interCount (palavras (optStr bairroRef)) (palavras cb) ≠ 0 then
            round2 ((interCount (palavras (optStr bairroRef)) (palavras cb) : ℚ) /
              (max (palavras (optStr bairroRef)).length (palavras cb).length : ℚ) * 5)
          else 0
        else 0
  else 0

/-- The four address sub-scores returned by `_score_endereco`. -/
structure EndScore where
  cep : ℚ
  endr : ℚ
  num : ℚ
  brr : ℚ

/-- `_score_endereco(logr_ref, num_ref, bairro_ref, cep_ref, c_logr, c_num,
c_bairro, c_cep)`: the four sub-scores are computed independently. -/
def scoreEndereco (logrRef numRef bairroRef cepRef cLogr cNum cBairro cCep : Option Str) :
    EndScore :=
  ⟨sCepOf cepRef cCep, sEndOf logrRef cLogr, sNumOf numRef cNum, sBrrOf bairroRef cBairro⟩

/-- `c_cnae_clean = re.sub(r"\D", "", c_cnae or "")[:7] if c_cnae else ""`. -/
def cnaeClean (cCnae : Option Str) : Str :=
  if pyTruthy cCnae then (digitsOnly (optStr cCnae)).take 7 else []

/-- The CNAE score of `executar_matching` / `refine_clientes`: 25 for an
exact match of the cleaned 7-digit codes, else 15 for equal 5-digit prefixes,
else 0. -/
def scoreCnae (cnaeNorm cnae5dig cCnae : Option Str) : ℚ :=
  if pyTruthy cnaeNorm && !(cnaeClean cCnae).isEmpty then
    if optStr cnaeNorm = cnaeClean cCnae then 25
    else if pyTruthy cnae5dig && decide ((cnaeClean cCnae).take 5 = optStr cnae5dig) then 15
    else 0
  else 0

/-- The client-side fields used by the dual-source scoring loop. -/
structure ClienteRef where
  logradouroNorm : Option Str
  numeroNorm : Option Str
  bairroNorm : Option Str
  cepNorm : Option Str
  cnaeNorm : Option Str
  cnae5dig : Option Str
  geoLogradouro : Option Str
  geoNumero : Option Str
  geoBairro : Option Str
  geoCep : Option Str

/-- The candidate (`cnpj_cache` row) fields used by the scoring loop. -/
structure Candidato where
  cnpj : Str
  logradouro : Option Str
  numero : Option Str
  bairro : Option Str
  cep : Option Str
  cnaeFiscal : Option Str

/-- Which address source produced the winning score. -/
inductive AddrSource
  | bdgd
  | geocoded
deriving DecidableEq, Repr

/-- One persisted score row: total, the five components, and provenance. -/
structure CandScore where
  total : ℚ
  sCep : ℚ
  sCnae : ℚ
  sEnd : ℚ
  sNum : ℚ
  sBrr : ℚ
  source : AddrSource
deriving DecidableEq, Repr

/-- `_score_endereco(logr_norm, num_norm, bairro_norm, cep_norm, c_logr,
c_num, c_bairro, c_cep)`: the sub-scores against the original BDGD address. -/
def bdgdEndOf (cli : ClienteRef) (cand : Candidato) : EndScore :=
  scoreEndereco cli.logradouroNorm cli.numeroNorm cli.bairroNorm cli.cepNorm
    cand.logradouro cand.numero cand.bairro cand.cep

/-- `_score_endereco(geo_logr, geo_num, geo_bairro, geo_cep, c_logr, c_num,
c_bairro, c_cep)`: the sub-scores against the geocoded address. -/
def geoEndOf (cli : ClienteRef) (cand : Candidato) : EndScore :=
  scoreEndereco cli.geoLogradouro cli.geoNumero cli.geoBairro cli.geoCep
    cand.logradouro cand.numero cand.bairro cand.cep

/-- `score_bdgd`: the sum of the original-address sub-scores and the CNAE score. -/
def scoreBdgdOf (cli : ClienteRef) (cand : Candidato) : ℚ :=
  (bdgdEndOf cli cand).cep + scoreCnae cli.cnaeNorm cli.cnae5dig cand.cnaeFiscal +
    (bdgdEndOf cli cand).endr + (bdgdEndOf cli cand).num + (bdgdEndOf cli cand).brr

/-- The `if geo_cep or geo_logr` gate of the dual-source loop. -/
def geoGate (cli : ClienteRef) : Bool :=
  pyTruthy cli.geoCep || pyTruthy cli.geoLogradouro

/-- `score_geo`: 0 when no geocoded address is present, else the sum of the
geocoded-address sub-scores and the (shared, not double-counted) CNAE score. -/
def scoreGeoOf (cli : ClienteRef) (cand : Candidato) : ℚ :=
  if geoGate cli then
    (geoEndOf cli cand).cep + scoreCnae cli.cnaeNorm cli.cnae5dig cand.cnaeFiscal +
      (geoEndOf cli cand).endr + (geoEndOf cli cand).num + (geoEndOf cli cand).brr
  else 0

/-- The dual-source scoring of one candidate (`executar_matching` lines
533–584, `refine_clientes` lines 330–377): keep the geocoded-address scores
exactly when `score_geo > score_bdgd`, else the original-address scores. -/
def scoreCandidate (cli : ClienteRef) (cand : Candidato) : CandScore :=
  if scoreGeoOf cli cand > scoreBdgdOf cli cand then
    ⟨scoreGeoOf cli cand, (geoEndOf cli cand).cep,
      scoreCnae cli.cnaeNorm cli.cnae5dig cand.cnaeFiscal,
      (geoEndOf cli cand).endr, (geoEndOf cli cand).num, (geoEndOf cli cand).brr,
      AddrSource.geocoded⟩
  else
    ⟨scoreBdgdOf cli cand, (bdgdEndOf cli cand).cep,
      scoreCnae cli.cnaeNorm cli.cnae5dig cand.cnaeFiscal,
      (bdgdEndOf cli cand).endr, (bdgdEndOf cli cand).num, (bdgdEndOf cli cand).brr,
      AddrSource.bdgd⟩

-- ### Rounding and Jaccard bounds

theorem roundHalfEven_cases (q : ℚ) :
    roundHalfEven q = ⌊q⌋ ∨ roundHalfEven q = ⌊q⌋ + 1 := by
  unfold roundHalfEven
  split_ifs <;> simp

theorem roundHalfEven_nonneg {q : ℚ} (h : 0 ≤ q) : 0 ≤ roundHalfEven q := by
  have hf : 0 ≤ ⌊q⌋ := Int.floor_nonneg.mpr h
  rcases roundHalfEven_cases q with hr | hr <;> omega

theorem roundHalfEven_le {q : ℚ} {B : ℤ} (h : q ≤ B) : roundHalfEven q ≤ B := by
  have hfl : ⌊q⌋ ≤ B := by
    calc ⌊q⌋ ≤ ⌊(B : ℚ)⌋ := Int.floor_le_floor h
    _ = B := Int.floor_intCast B
  unfold roundHalfEven
  split_ifs with h1 h2 h3
  · exact hfl
  · have hq : (⌊q⌋ : ℚ) ≤ q - 1/2 := by linarith
    have hfloor : (⌊q⌋ : ℚ) < B := by
      have := Int.floor_le q
      linarith
    have : ⌊q⌋ < B := by exact_mod_cast hfloor
    omega
  · exact hfl
  · have hq : (⌊q⌋ : ℚ) ≤ q - 1/2 := by linarith
    have hfloor : (⌊q⌋ : ℚ) < B := by linarith
    have : ⌊q⌋ < B := by exact_mod_cast hfloor
    omega

theorem round2_nonneg {q : ℚ} (h : 0 ≤ q) : 0 ≤ round2 q := by
  unfold round2
  have : 0 ≤ roundHalfEven (q * 100) := roundHalfEven_nonneg (by positivity)
  have hc : (0 : ℚ) ≤ (roundHalfEven (q * 100) : ℚ) := by exact_mod_cast this
  positivity

theorem round2_le {q : ℚ} {B : ℤ} (h : q ≤ B) : round2 q ≤ B := by
  unfold round2
  rw [div_le_iff (by norm_num : (0:ℚ) < 100)]
  have hq : q * 100 ≤ ((B * 100 : ℤ) : ℚ) := by
    push_cast
    nlinarith
  have := roundHalfEven_le hq
  have hc : ((roundHalfEven (q * 100)) : ℚ) ≤ ((B * 100 : ℤ) : ℚ) := by exact_mod_cast this
  push_cast at hc ⊢
  linarith

theorem interCount_le_left (A B : List Str) : interCount A B ≤ A.length :=
  List.length_filter_le _ _

theorem interCount_le_unionCount (A B : List Str) : interCount A B ≤ unionCount A B := by
  unfold unionCount
  calc interCount A B ≤ A.length := interCount_le_left A B
  _ ≤ (A ++ B.filter fun w => decide (w ∉ A)).length := by
      rw [List.length_append]; omega

theorem jaccard_le_one (A B : List Str) :
    (interCount A B : ℚ) / (unionCount A B : ℚ) ≤ 1 := by
  by_cases hu : unionCount A B = 0
  · rw [hu]
    simp
  · apply div_le_one_of_le
    · exact_mod_cast interCount_le_unionCount A B
    · positivity

theorem jaccard_nonneg (A B : List Str) :
    0 ≤ (interCount A B : ℚ) / (unionCount A B : ℚ) := by positivity

theorem brrRatio_le_one (A B : List Str) :
    (interCount A B : ℚ) / (max A.length B.length : ℚ) ≤ 1 := by
  by_cases hm : max A.length B.length = 0
  · obtain ⟨hA, hB⟩ := Nat.max_eq_zero_iff.mp hm
    rw [hA, hB]
    norm_num
  · apply div_le_one_of_le
    · calc (interCount A B : ℚ) ≤ (A.length : ℚ) := by
            exact_mod_cast interCount_le_left A B
      _ ≤ max (A.length : ℚ) (B.length : ℚ) := le_max_left _ _
    · exact le_trans (Nat.cast_nonneg A.length) (le_max_left _ _)

-- ### Component bounds

theorem sCepOf_bounds (a b : Option Str) : 0 ≤ sCepOf a b ∧ sCepOf a b ≤ 40 := by
  unfold sCepOf
  split_ifs <;> norm_num

theorem sEndOf_bounds (a b : Option Str) : 0 ≤ sEndOf a b ∧ sEndOf a b ≤ 20 := by
  unfold sEndOf
  split
  · split
    · norm_num
    · rename_i cn _
      split
      · constructor
        · apply round2_nonneg
          positivity
        · have hle := jaccard_le_one (palavras (optStr a)) (palavras cn)
          have hnn := jaccard_nonneg (palavras (optStr a)) (palavras cn)
          have h20 : (interCount (palavras (optStr a)) (palavras cn) : ℚ) /
              (unionCount (palavras (optStr a)) (palavras cn) : ℚ) * 20 ≤ ((20 : ℤ) : ℚ) := by
            push_cast
            nlinarith
          have := round2_le h20
          exact_mod_cast this
      · norm_num
  · norm_num

theorem sNumOf_bounds (a b : Option Str) : 0 ≤ sNumOf a b ∧ sNumOf a b ≤ 10 := by
  unfold sNumOf
  split_ifs <;> norm_num

theorem sBrrOf_bounds (a b : Option Str) : 0 ≤ sBrrOf a b ∧ sBrrOf a b ≤ 5 := by
  unfold sBrrOf
  split
  · split
    · norm_num
    · rename_i cb _
      split
      · norm_num
      · split
        · split
          · constructor
            · apply round2_nonneg
              have hnn : (0:ℚ) ≤ (interCount (palavras (optStr a)) (palavras cb) : ℚ) /
                  (max ((palavras (optStr a)).length : ℚ) ((palavras cb).length : ℚ)) := by
                apply div_nonneg (Nat.cast_nonneg _)
                exact le_trans (Nat.cast_nonneg _) (le_max_left _ _)
              linarith
            · have hle := brrRatio_le_one (palavras (optStr a)) (palavras cb)
              have hnn : (0:ℚ) ≤ (interCount (palavras (optStr a)) (palavras cb) : ℚ) /
                  (max ((palavras (optStr a)).length : ℚ) ((palavras cb).length : ℚ)) := by
                apply div_nonneg (Nat.cast_nonneg _)
                exact le_trans (Nat.cast_nonneg _) (le_max_left _ _)
              have h5 : (interCount (palavras (optStr a)) (palavras cb) : ℚ) /
                  (max ((palavras (optStr a)).length : ℚ) ((palavras cb).length : ℚ)) * 5
                    ≤ ((5 : ℤ) : ℚ) := by
                push_cast
                nlinarith
              have := round2_le h5
              exact_mod_cast this
          · norm_num
        · norm_num
  · norm_num

theorem scoreCnae_bounds (a b c : Option Str) : 0 ≤ scoreCnae a b c ∧ scoreCnae a b c ≤ 25 := by
  unfold scoreCnae
  repeat' split
  all_goals norm_num

theorem scoreBdgdOf_bounds (cli : ClienteRef) (cand : Candidato) :
    0 ≤ scoreBdgdOf cli cand ∧ scoreBdgdOf cli cand ≤ 100 := by
  have h1 := sCepOf_bounds cli.cepNorm cand.cep
  have h2 := scoreCnae_bounds cli.cnaeNorm cli.cnae5dig cand.cnaeFiscal
  have h3 := sEndOf_bounds cli.logradouroNorm cand.logradouro
  have h4 := sNumOf_bounds cli.numeroNorm cand.numero
  have h5 := sBrrOf_bounds cli.bairroNorm cand.bairro
  simp only [scoreBdgdOf, bdgdEndOf, scoreEndereco]
  constructor <;> linarith [h1.1, h1.2, h2.1, h2.2, h3.1, h3.2, h4.1, h4.2, h5.1, h5.2]

theorem scoreGeoOf_bounds (cli : ClienteRef) (cand : Candidato) :
    0 ≤ scoreGeoOf cli cand ∧ scoreGeoOf cli cand ≤ 100 := by
  have h1 := sCepOf_bounds cli.geoCep cand.cep
  have h2 := scoreCnae_bounds cli.cnaeNorm cli.cnae5dig cand.cnaeFiscal
  have h3 := sEndOf_bounds cli.geoLogradouro cand.logradouro
  have h4 := sNumOf_bounds cli.geoNumero cand.numero
  have h5 := sBrrOf_bounds cli.geoBairro cand.bairro
  unfold scoreGeoOf
  split
  · simp only [geoEndOf, scoreEndereco]
    constructor <;> linarith [h1.1, h1.2, h2.1, h2.2, h3.1, h3.2, h4.1, h4.2, h5.1, h5.2]
  · norm_num

/-- Claim C3: for every client/candidate pair, the computed score satisfies
`0 ≤ total ≤ 100` and `total` equals the sum of the five persisted
components `cep + cnae + street + number + neighborhood`, in either branch of
the dual-source selection. -/
theorem c3_score_total_bounds_and_sum (cli : ClienteRef) (cand : Candidato) :
    0 ≤ (scoreCandidate cli cand).total ∧ (scoreCandidate cli cand).total ≤ 100 ∧
    (scoreCandidate cli cand).total =
      (scoreCandidate cli cand).sCep + (scoreCandidate cli cand).sCnae +
        (scoreCandidate cli cand).sEnd + (scoreCandidate cli cand).sNum +
        (scoreCandidate cli cand).sBrr := by
  unfold scoreCandidate
  split
  · rename_i hgt
    dsimp only
    refine ⟨(scoreGeoOf_bounds cli cand).1, (scoreGeoOf_bounds cli cand).2, ?_⟩
    by_cases hg : geoGate cli = true
    · unfold scoreGeoOf
      rw [if_pos hg]
    · exfalso
      have hz : scoreGeoOf cli cand = 0 := by unfold scoreGeoOf; rw [if_neg hg]
      have := (scoreBdgdOf_bounds cli cand).1
      rw [hz] at hgt
      linarith
  · dsimp only
    exact ⟨(scoreBdgdOf_bounds cli cand).1, (scoreBdgdOf_bounds cli cand).2, rfl⟩

/-- Claim C10: the geocoded address source is selected (and recorded as
`geocoded`) exactly when the geocoded-address score is strictly greater than
the original-address score; on equality the original-address component scores
are kept and the source is `bdgd`. -/
theorem c10_geocoded_source_iff_strictly_better (cli : ClienteRef) (cand : Candidato) :
    ((scoreCandidate cli cand).source = AddrSource.geocoded ↔
      scoreBdgdOf cli cand < scoreGeoOf cli cand) ∧
    (scoreGeoOf cli cand = scoreBdgdOf cli cand →
      scoreCandidate cli cand =
        ⟨scoreBdgdOf cli cand, (bdgdEndOf cli cand).cep,
          scoreCnae cli.cnaeNorm cli.cnae5dig cand.cnaeFiscal,
          (bdgdEndOf cli cand).endr, (bdgdEndOf cli cand).num, (bdgdEndOf cli cand).brr,
          AddrSource.bdgd⟩) := by
  unfold scoreCandidate
  split
  · rename_i h
    refine ⟨⟨fun _ => h, fun _ => rfl⟩, fun heq => absurd (heq ▸ h) (lt_irrefl _)⟩
  · rename_i h
    refine ⟨⟨fun hsrc => ?_, fun hlt => absurd hlt h⟩, fun _ => rfl⟩
    exact absurd hsrc (by simp)

def cliNone : ClienteRef := ⟨none, none, none, none, none, none, none, none, none, none⟩

def candNone : Candidato := ⟨[], none, none, none, none, none⟩

theorem c10_witness :
    scoreGeoOf cliNone candNone = scoreBdgdOf cliNone candNone ∧
    (scoreCandidate cliNone candNone).source = AddrSource.bdgd := by
  have h := c10_geocoded_source_iff_strictly_better cliNone candNone
  have e1 : sCepOf (none : Option Str) none = 0 := by
    unfold sCepOf
    rw [if_neg (by decide)]
  have e2 : sEndOf (none : Option Str) none = 0 := by
    unfold sEndOf
    rw [if_neg (by decide)]
  have e3 : sNumOf (none : Option Str) none = 0 := by
    unfold sNumOf
    rw [if_neg (by decide)]
  have e4 : sBrrOf (none : Option Str) none = 0 := by
    unfold sBrrOf
    rw [if_neg (by decide)]
  have e5 : scoreCnae (none : Option Str) none none = 0 := by
    unfold scoreCnae
    rw [if_neg (by decide)]
  have h0 : scoreBdgdOf cliNone candNone = 0 := by
    show sCepOf none none + scoreCnae none none none + sEndOf none none +
      sNumOf none none + sBrrOf none none = 0
    rw [e1, e2, e3, e4, e5]
    norm_num
  have hg : scoreGeoOf cliNone candNone = 0 := by
    unfold scoreGeoOf
    rw [if_neg (by decide)]
  have heq : scoreGeoOf cliNone candNone = scoreBdgdOf cliNone candNone := hg.trans h0.symm
  refine ⟨heq, ?_⟩
  rw [h.2 heq]

-- ### The "RUA DAS FLORES" street-similarity example

theorem sEndOf_ruaDasFlores :
    sEndOf (some "RUA DAS FLORES".toList) (some "R FLORES".toList) = 667/100 := by
  have h1 : normalizarTexto (optStr (some "R FLORES".toList)) = some "R FLORES".toList := by
    decide
  unfold sEndOf
  rw [if_pos (by decide)]
  simp only [h1]
  rw [if_pos (by decide)]
  rw [show interCount (palavras (optStr (some "RUA DAS FLORES".toList)))
      (palavras "R FLORES".toList) = 1 by decide]
  rw [show unionCount (palavras (optStr (some "RUA DAS FLORES".toList)))
      (palavras "R FLORES".toList) = 3 by decide]
  norm_num [round2, roundHalfEven]

/-- Claim C4 counterexample: for client street `"RUA DAS FLORES"` and
candidate street `"R FLORES"`, the street component is NOT 20: the `>2`
length filter removes only `"R"`, so the word sets are `{RUA, DAS, FLORES}`
and `{FLORES}`, with Jaccard 1/3, not 1. -/
theorem c4_street_example_not_20 :
    sEndOf (some "RUA DAS FLORES".toList) (some "R FLORES".toList) ≠ 20 := by
  rw [sEndOf_ruaDasFlores]
  norm_num

/-- Claim C4 (amended): for client street `"RUA DAS FLORES"` and candidate
street `"R FLORES"`, the word sets after the `>2`-character filter are
`{RUA, DAS, FLORES}` and `{FLORES}` (sizes: intersection 1, union 3), so the
street component is `round(1/3 * 20, 2) = 6.67`. -/
theorem c4_amended_street_example_667 :
    sEndOf (some "RUA DAS FLORES".toList) (some "R FLORES".toList) = 667/100 ∧
    interCount (palavras "RUA DAS FLORES".toList) (palavras "R FLORES".toList) = 1 ∧
    unionCount (palavras "RUA DAS FLORES".toList) (palavras "R FLORES".toList) = 3 :=
  ⟨sEndOf_ruaDasFlores, by decide, by decide⟩

-- ### The CNAE 25/15/0 rule

theorem isEmpty_false_of_ne_nil {l : Str} (h : l ≠ []) : l.isEmpty = false := by
  cases l
  · exact absurd rfl h
  · rfl

/-- Claim C5: for a client with a normalized 7-digit code `a` (and cached
5-digit prefix `a[:5]`) and a candidate whose cleaned code is nonempty, the
CNAE component is 25 if the codes are equal, else 15 if the 5-digit prefixes
are equal, else 0; in particular client `"4711301"` against candidate
`"4711302"` yields 15. -/
theorem c5_cnae_25_15_0 :
    (∀ a cRaw : Str, a.length = 7 → (digitsOnly cRaw).take 7 ≠ [] →
      scoreCnae (some a) (some (a.take 5)) (some cRaw) =
        (if a = (digitsOnly cRaw).take 7 then 25
         else if ((digitsOnly cRaw).take 7).take 5 = a.take 5 then (15:ℚ) else 0)) ∧
    scoreCnae (some "4711301".toList) (some "47113".toList) (some "4711302".toList) = 15 := by
  constructor
  · intro a cRaw h7 hcc
    have hane : a ≠ [] := by
      intro h
      rw [h] at h7
      simp at h7
    have hcraw : cRaw ≠ [] := by
      intro h
      rw [h] at hcc
      exact hcc rfl
    have hclean : cnaeClean (some cRaw) = (digitsOnly cRaw).take 7 := by
      unfold cnaeClean
      rw [if_pos]
      · rfl
      · show (!cRaw.isEmpty) = true
        rw [isEmpty_false_of_ne_nil hcraw]
        rfl
    have hta : pyTruthy (some a) = true := by
      show (!a.isEmpty) = true
      rw [isEmpty_false_of_ne_nil hane]
      rfl
    have ht5 : pyTruthy (some (a.take 5)) = true := by
      show (!(a.take 5).isEmpty) = true
      rw [isEmpty_false_of_ne_nil]
      · rfl
      · intro h
        rcases List.take_eq_nil_iff.mp h with h | h
        · exact absurd h (by norm_num)
        · exact hane h
    unfold scoreCnae
    rw [hclean]
    rw [if_pos (by
      rw [Bool.and_eq_true, hta]
      exact ⟨rfl, by rw [isEmpty_false_of_ne_nil hcc]; rfl⟩)]
    simp only [optStr, Option.getD_some]
    by_cases h25 : a = (digitsOnly cRaw).take 7
    · rw [if_pos h25, if_pos h25]
    · rw [if_neg h25, if_neg h25]
      by_cases h15 : ((digitsOnly cRaw).take 7).take 5 = a.take 5
      · rw [if_pos (by rw [Bool.and_eq_true, ht5]; exact ⟨rfl, decide_eq_true h15⟩),
          if_pos h15]
      · rw [if_neg (by
          intro hcond
          rw [Bool.and_eq_true] at hcond
          exact h15 (of_decide_eq_true hcond.2)), if_neg h15]
  · decide

theorem c5_cnae_witness :
    scoreCnae (some "1234567".toList) (some ("1234567".toList.take 5))
      (some "12-345/99".toList) = 15 := by
  have h := c5_cnae_25_15_0.1 "1234567".toList "12-345/99".toList (by decide) (by decide)
  rw [h]
  decide

-- ## Ranker (sort descending by `score_total`, top N, ranks 1..k)

/-- The comparison used by `scored.sort(key=lambda x: x[0], reverse=True)`:
`x` may come before `y` iff `x`'s score is at least `y`'s. The Python sort is
stable; `List.insertionSort` is a stable sort, so it models it faithfully. -/
def scoreGE {α : Type} (x y : ℚ × α) : Prop := y.1 ≤ x.1

instance {α : Type} : DecidableRel (@scoreGE α) :=
  fun x y => inferInstanceAs (Decidable (y.1 ≤ x.1))

instance {α : Type} : IsTotal (ℚ × α) scoreGE := ⟨fun a b => le_total b.1 a.1⟩

instance {α : Type} : IsTrans (ℚ × α) scoreGE := ⟨fun _ _ _ h1 h2 => le_trans h2 h1⟩

/-- `scored.sort(key=lambda x: x[0], reverse=True)`, then `scored[:top_n]`,
then `enumerate(..., 1)`: the ranked rows `(rank, (score_total, payload))`
persisted for one client (`executar_matching` lines 590–609,
`refine_clientes` lines 395–418 with `top_n = 3`). -/
def rankMatches {α : Type} (scored : List (ℚ × α)) (topN : ℕ) : List (ℕ × ℚ × α) :=
  ((scored.insertionSort scoreGE).take topN).enumFrom 1

/-- Claim C2 counterexample: two surviving candidates with equal
`score_total` (a tie) produce ranks 1 and 2 with EQUAL scores, so the
persisted ranks are NOT strictly ordered by descending `score_total`. -/
theorem c2_strict_descending_fails_on_ties :
    rankMatches [((50:ℚ), (0:ℕ)), (50, 1)] 3 = [(1, (50, 0)), (2, (50, 1))] ∧
    ¬ List.Pairwise (fun a b : ℕ × ℚ × ℕ => b.2.1 < a.2.1)
      (rankMatches [((50:ℚ), (0:ℕ)), (50, 1)] 3) := by
  have he : rankMatches [((50:ℚ), (0:ℕ)), (50, 1)] 3 = [(1, (50, 0)), (2, (50, 1))] := by
    unfold rankMatches
    rw [show List.insertionSort scoreGE [((50:ℚ), (0:ℕ)), (50, 1)] =
        [((50:ℚ), (0:ℕ)), (50, 1)] from by
      show List.orderedInsert scoreGE ((50:ℚ), (0:ℕ))
        (List.orderedInsert scoreGE ((50:ℚ), (1:ℕ)) (List.insertionSort scoreGE [])) = _
      show List.orderedInsert scoreGE ((50:ℚ), (0:ℕ)) [((50:ℚ), (1:ℕ))] = _
      unfold List.orderedInsert
      rw [if_pos (show scoreGE ((50:ℚ), (0:ℕ)) ((50:ℚ), (1:ℕ)) from le_refl (50:ℚ))]]
    rfl
  refine ⟨he, ?_⟩
  rw [he]
  intro hp
  have h50 := (List.pairwise_cons.mp hp).1 (2, (50, 1)) (List.mem_singleton_self _)
  exact absurd h50 (lt_irrefl _)

/-- Claim C2 (amended): for every client with at least one surviving
candidate (and `top_n ≥ 1`), the persisted ranks form the contiguous
sequence `1..k` with `1 ≤ k = min(top_n, #candidates) ≤ top_n` (N=3 by
default), ordered by NON-INCREASING `score_total` (ties between equal scores
are possible, kept in input order by the stable sort). -/
theorem c2_amended_ranks_contiguous_topN_nonincreasing {α : Type}
    (scored : List (ℚ × α)) (topN : ℕ) (hne : scored ≠ []) (htop : 1 ≤ topN) :
    (rankMatches scored topN).map Prod.fst =
      List.range' 1 (min topN scored.length) ∧
    1 ≤ (rankMatches scored topN).length ∧
    (rankMatches scored topN).length ≤ topN ∧
    List.Pairwise (fun a b : ℕ × ℚ × α => b.2.1 ≤ a.2.1) (rankMatches scored topN) := by
  have hlen_sort : (scored.insertionSort scoreGE).length = scored.length :=
    List.length_insertionSort scoreGE scored
  have hlenT : ((scored.insertionSort scoreGE).take topN).length = min topN scored.length := by
    rw [List.length_take, hlen_sort]
  have hlen : (rankMatches scored topN).length = min topN scored.length := by
    unfold rankMatches
    rw [List.enumFrom_length, hlenT]
  refine ⟨?_, ?_, ?_, ?_⟩
  · unfold rankMatches
    rw [List.enumFrom_map_fst, hlenT]
  · rw [hlen]
    exact le_min htop (Nat.one_le_iff_ne_zero.mpr
      (fun h => hne (List.length_eq_zero.mp h)))
  · rw [hlen]
    exact min_le_left _ _
  · have hsorted : List.Pairwise scoreGE (scored.insertionSort scoreGE) :=
      List.sorted_insertionSort scoreGE scored
    have hp : List.Pairwise scoreGE ((scored.insertionSort scoreGE).take topN) :=
      List.Pairwise.sublist (List.take_sublist topN _) hsorted
    have hmap : List.Pairwise scoreGE
        ((((scored.insertionSort scoreGE).take topN).enumFrom 1).map Prod.snd) := by
      rw [List.enumFrom_map_snd]
      exact hp
    exact List.pairwise_map.mp hmap

theorem c2_amended_witness :
    (rankMatches [((80:ℚ), (0:ℕ))] 3).map Prod.fst =
      List.range' 1 (min 3 [((80:ℚ), (0:ℕ))].length) ∧
    1 ≤ (rankMatches [((80:ℚ), (0:ℕ))] 3).length ∧
    (rankMatches [((80:ℚ), (0:ℕ))] 3).length ≤ 3 ∧
    List.Pairwise (fun a b : ℕ × ℚ × ℕ => b.2.1 ≤ a.2.1)
      (rankMatches [((80:ℚ), (0:ℕ))] 3) :=
  c2_amended_ranks_contiguous_topN_nonincreasing [((80:ℚ), (0:ℕ))] 3
    (by simp) (by norm_num)

-- ## Bulk Loader (`src/cnpj/loader.py`)

/-- One raw semicolon-separated CSV row (list of string fields). -/
abbrev Row := List Str

/-- `SITUACAO_ATIVA = "02"`. -/
def situacaoAtiva : Str := "02".toList

/-- One row of `prescan_estabelecimentos`: rows shorter than 6 fields are
skipped; the stripped `cnpj_basico` (column 0) is collected when the stripped
`situacao_cadastral` (column 5) is `"02"`. -/
def prescanRow (r : Row) : Option Str :=
  if r.length < 6 then none
  else if pyStrip (r.getD 5 []) = situacaoAtiva then some (pyStrip (r.getD 0 []))
  else none

/-- `prescan_estabelecimentos`: the set (as a list, membership is what
matters) of base IDs of establishment rows with active status. -/
def prescanEstabelecimentos (rows : List Row) : List Str :=
  rows.filterMap prescanRow

/-- `_clean`: strip whitespace, `None` for the empty result. -/
def pyClean (s : Str) : Option Str :=
  if pyStrip s = [] then none else some (pyStrip s)

/-- One row of `load_simples_filtered`, restricted to the MEI subset it
derives: rows shorter than 5 fields are skipped, rows whose base ID is not in
`needed_basicos` are skipped, and the base ID is collected into `mei_subset`
exactly when `_clean(row[4]) == "S"`. -/
def simplesMeiRow (needed : List Str) (r : Row) : Option Str :=
  if r.length < 5 then none
  else if pyStrip (r.getD 0 []) ∉ needed then none
  else if pyClean (r.getD 4 []) = some ['S'] then some (pyStrip (r.getD 0 []))
  else none

/-- The `mei_subset` computed by `load_simples_filtered(needed_basicos)`. -/
def loadSimplesMei (needed : List Str) (rows : List Row) : List Str :=
  rows.filterMap (simplesMeiRow needed)

/-- The fields of a `cnpj_cache` record relevant to the stage-5 filters:
full tax ID, base ID, and stored status text. -/
structure EstabRecord where
  cnpj : Str
  cnpjBasico : Str
  situacaoCadastral : Str
deriving DecidableEq, Repr

/-- `SITUACAO_MAP.get(code, code)`. -/
def situacaoMap (code : Str) : Str :=
  if code = "01".toList then "NULA".toList
  else if code = "02".toList then "ATIVA".toList
  else if code = "03".toList then "SUSPENSA".toList
  else if code = "04".toList then "INAPTA".toList
  else if code = "08".toList then "BAIXADA".toList
  else code

/-- One row of the stage-5 loop of `load_estabelecimentos`: skip rows with
fewer than 28 fields, skip non-active rows, skip malformed tax IDs (length
≠ 14), skip rows whose base ID is in the MEI subset; otherwise build the
record inserted into `cnpj_cache`. -/
def processEstabRow (meiSet : List Str) (r : Row) : Option EstabRecord :=
  if r.length < 28 then none
  else if pyStrip (r.getD 5 []) ≠ situacaoAtiva then none
  else if (pyStrip (r.getD 0 []) ++ pyStrip (r.getD 1 []) ++ pyStrip (r.getD 2 [])).length ≠ 14
    then none
  else if pyStrip (r.getD 0 []) ∈ meiSet then none
  else some ⟨pyStrip (r.getD 0 []) ++ pyStrip (r.getD 1 []) ++ pyStrip (r.getD 2 []),
    pyStrip (r.getD 0 []), situacaoMap (pyStrip (r.getD 5 []))⟩

/-- The records that `load_estabelecimentos` inserts, in stream order. -/
def loadEstabelecimentosRecords (meiSet : List Str) (rows : List Row) : List EstabRecord :=
  rows.filterMap (processEstabRow meiSet)

/-- Stages 2, 3 and 5 of `run_full_load` chained as in the source: pre-scan
the establishment rows, derive the MEI subset from the Simples rows filtered
to the active set, then stream the establishment rows again. -/
def runBulkPipeline (estRows simplesRows : List Row) : List EstabRecord :=
  loadEstabelecimentosRecords
    (loadSimplesMei (prescanEstabelecimentos estRows) simplesRows) estRows

/-- Claim C7: every record in the registry after a Bulk Loader run has a base
ID that was collected in the pre-scan (active set), its base ID is not in the
MEI subset, and its stored status is `ATIVA`: no inactive and no MEI row is
ever inserted. -/
theorem c7_registry_only_active_non_mei (estRows simplesRows : List Row)
    (rec : EstabRecord) (h : rec ∈ runBulkPipeline estRows simplesRows) :
    rec.cnpjBasico ∈ prescanEstabelecimentos estRows ∧
    rec.cnpjBasico ∉ loadSimplesMei (prescanEstabelecimentos estRows) simplesRows ∧
    rec.situacaoCadastral = "ATIVA".toList := by
  obtain ⟨r, hr, hproc⟩ := List.mem_filterMap.mp h
  unfold processEstabRow at hproc
  split_ifs at hproc with h1 h2 h3 h4
  rcases Option.some_injective _ hproc with rfl
  have hsit : pyStrip (r.getD 5 []) = situacaoAtiva := not_not.mp h2
  refine ⟨?_, ?_, ?_⟩
  · apply List.mem_filterMap.mpr
    refine ⟨r, hr, ?_⟩
    unfold prescanRow
    rw [if_neg (by omega), if_pos hsit]
  · exact h4
  · show situacaoMap (pyStrip (r.getD 5 [])) = "ATIVA".toList
    rw [hsit]
    decide

/-- A well-formed active establishment row (28 fields, status `02`). -/
def sampleEstabRow : Row :=
  ["12345678".toList, "0001".toList, "95".toList, "1".toList, "LOJA".toList,
    "02".toList] ++ List.replicate 22 []

theorem c7_witness :
    (⟨"12345678000195".toList, "12345678".toList, "ATIVA".toList⟩ : EstabRecord).cnpjBasico ∈
      prescanEstabelecimentos [sampleEstabRow] ∧
    (⟨"12345678000195".toList, "12345678".toList, "ATIVA".toList⟩ : EstabRecord).cnpjBasico ∉
      loadSimplesMei (prescanEstabelecimentos [sampleEstabRow]) [] ∧
    (⟨"12345678000195".toList, "12345678".toList,
      "ATIVA".toList⟩ : EstabRecord).situacaoCadastral = "ATIVA".toList :=
  c7_registry_only_active_non_mei [sampleEstabRow] []
    ⟨"12345678000195".toList, "12345678".toList, "ATIVA".toList⟩ (by decide)

-- ### Registry operations of `load_estabelecimentos` (claim C1)

/-- A committed database operation of `load_estabelecimentos` on the company
registry table `cnpj_cache` itself (the function commits after the initial
`TRUNCATE` and after every `_flush_batch`). -/
inductive RegistryOp
  | truncateCache
  | insertCache (recs : List EstabRecord)
deriving DecidableEq, Repr

def applyRegistryOp (s : List EstabRecord) : RegistryOp → List EstabRecord
  | RegistryOp.truncateCache => []
  | RegistryOp.insertCache recs => s ++ recs

def applyRegistryOps (s : List EstabRecord) (ops : List RegistryOp) : List EstabRecord :=
  ops.foldl applyRegistryOp s

/-- `BATCH_SIZE = 10000` (`src/cnpj/config.py`): rows per DB commit. -/
def BATCH_SIZE : ℕ := 10000

def chunkAux {β : Type} (n : ℕ) : ℕ → List β → List (List β)
  | 0, _ => []
  | _ + 1, [] => []
  | fuel + 1, b :: t => ((b :: t).take n) :: chunkAux n fuel ((b :: t).drop n)

/-- Split a list into consecutive chunks of `n` elements (the batching of
`_flush_batch`). -/
def chunkList {β : Type} (n : ℕ) (l : List β) : List (List β) :=
  chunkAux n l.length l

/-- The committed-transaction trace of `load_estabelecimentos`: a `TRUNCATE`
of `cnpj_cache` (committed on its own), followed by one committed multi-row
`INSERT` directly into `cnpj_cache` per batch of `BATCH_SIZE` records. There
is no staging table and no merge step for establishments. -/
def loadEstabelecimentosOps (meiSet : List Str) (rows : List Row) : List RegistryOp :=
  RegistryOp.truncateCache ::
    (chunkList BATCH_SIZE (loadEstabelecimentosRecords meiSet rows)).map
      RegistryOp.insertCache

theorem applyRegistryOps_insertBatches (bs : List (List EstabRecord)) :
    ∀ s, applyRegistryOps s (bs.map RegistryOp.insertCache) = s ++ bs.flatten := by
  induction bs with
  | nil => intro s; simp [applyRegistryOps]
  | cons b bs ih =>
    intro s
    show applyRegistryOps (s ++ b) (bs.map RegistryOp.insertCache) = _
    rw [ih (s ++ b), List.flatten_cons, List.append_assoc]

theorem chunkAux_flatten {β : Type} {n : ℕ} (hn : 0 < n) :
    ∀ (fuel : ℕ) (l : List β), l.length ≤ fuel → (chunkAux n fuel l).flatten = l := by
  intro fuel
  induction fuel with
  | zero =>
    intro l hl
    rw [List.length_eq_zero.mp (Nat.le_zero.mp hl)]
    rfl
  | succ fuel ih =>
    intro l hl
    cases l with
    | nil => rfl
    | cons b t =>
      rw [chunkAux, List.flatten_cons, ih ((b :: t).drop n) ?_, List.take_append_drop]
      rw [List.length_drop]
      simp only [List.length_cons] at hl ⊢
      omega

theorem chunkList_flatten {β : Type} {n : ℕ} (hn : 0 < n) (l : List β) :
    (chunkList n l).flatten = l :=
  chunkAux_flatten hn l.length l le_rfl

/-- Claim C1 (amended): `load_estabelecimentos` does NOT use a staging table:
its trace starts with a committed `TRUNCATE` of `cnpj_cache` itself, every
subsequent committed operation inserts a batch directly into `cnpj_cache`,
so after the truncate plus the first `k` committed batches the registry holds
exactly those `k` batches (a committed partial state, whatever the initial
registry contents were), and only after the whole run does it hold all
filtered records. -/
theorem c1_amended_truncate_then_direct_batches (init : List EstabRecord)
    (meiSet : List Str) (rows : List Row) (k : ℕ) :
    (loadEstabelecimentosOps meiSet rows).head? = some RegistryOp.truncateCache ∧
    applyRegistryOps init ((loadEstabelecimentosOps meiSet rows).take (1 + k)) =
      ((chunkList BATCH_SIZE (loadEstabelecimentosRecords meiSet rows)).take k).flatten ∧
    applyRegistryOps init (loadEstabelecimentosOps meiSet rows) =
      loadEstabelecimentosRecords meiSet rows := by
  unfold loadEstabelecimentosOps
  refine ⟨rfl, ?_, ?_⟩
  · rw [Nat.add_comm 1 k, List.take_succ_cons]
    show applyRegistryOps [] (((chunkList BATCH_SIZE
      (loadEstabelecimentosRecords meiSet rows)).map RegistryOp.insertCache).take k) = _
    rw [← List.map_take, applyRegistryOps_insertBatches, List.nil_append]
  · show applyRegistryOps [] ((chunkList BATCH_SIZE
      (loadEstabelecimentosRecords meiSet rows)).map RegistryOp.insertCache) = _
    rw [applyRegistryOps_insertBatches, List.nil_append,
      chunkList_flatten (by norm_num [BATCH_SIZE])]

/-- A record already in the registry before the run. -/
def priorRec : EstabRecord :=
  ⟨"00000000000000".toList, "00000000".toList, "ATIVA".toList⟩

/-- Claim C1 counterexample: the very first committed operation of
`load_estabelecimentos` already empties `cnpj_cache`, so a run that fails
after it (before the run is complete) does NOT leave the registry untouched —
there is no disposable staging table protecting the registry. -/
theorem c1_registry_touched_before_completion :
    applyRegistryOps [priorRec] ((loadEstabelecimentosOps [] [sampleEstabRow]).take 1) = [] ∧
    (loadEstabelecimentosOps [] [sampleEstabRow]).take 1 ≠
      loadEstabelecimentosOps [] [sampleEstabRow] := by
  constructor
  · rfl
  · decide

-- ## Match-table transactions (claim C8)

/-- One persisted `bdgd_cnpj_matches` row (fields relevant to replacement). -/
structure MatchRow where
  cliente : Str
  cnpj : Str
  rank : ℕ
  scoreTotal : ℚ
deriving DecidableEq, Repr

/-- One SQL statement touching `bdgd_cnpj_matches`. -/
inductive MatchOp
  | truncateAll
  | insertRows (rs : List MatchRow)
  | deleteCliente (cid : Str)
  | insertRow (r : MatchRow)
deriving DecidableEq

/-- A transaction: a list of statements committed atomically — intermediate
states between its statements are never visible to other readers. -/
abbrev MatchTxn := List MatchOp

def applyMatchOp (s : List MatchRow) : MatchOp → List MatchRow
  | MatchOp.truncateAll => []
  | MatchOp.insertRows rs => s ++ rs
  | MatchOp.deleteCliente cid => s.filter fun r => decide (r.cliente ≠ cid)
  | MatchOp.insertRow r => s ++ [r]

def applyMatchTxn (s : List MatchRow) (txn : MatchTxn) : List MatchRow :=
  txn.foldl applyMatchOp s

def applyMatchTxns (s : List MatchRow) (txns : List MatchTxn) : List MatchRow :=
  txns.foldl applyMatchTxn s

/-- The committed-transaction trace of `executar_matching` (lines 416–421 and
611–627): first `TRUNCATE bdgd_cnpj_matches` committed on its own, BEFORE any
scoring, then one committed multi-row insert per client batch. -/
def executarMatchingTxns (batches : List (List MatchRow)) : List MatchTxn :=
  [MatchOp.truncateAll] :: batches.map fun b => [MatchOp.insertRows b]

/-- The statements `refine_clientes` issues for one client (lines 390–418):
`DELETE FROM bdgd_cnpj_matches WHERE bdgd_cod_id = :cod_id` followed by the
inserts of the new top-3 rows — all inside the single refine transaction
(the only `db.commit()` is at line 424, after all clients). -/
def refineClienteOps (cid : Str) (newRows : List MatchRow) : List MatchOp :=
  MatchOp.deleteCliente cid :: newRows.map MatchOp.insertRow

/-- The single transaction of one `refine_clientes` call. -/
def refineTxn (updates : List (Str × List MatchRow)) : MatchTxn :=
  (updates.map fun u => refineClienteOps u.1 u.2).flatten

theorem foldl_insertRow (rows : List MatchRow) :
    ∀ s, List.foldl applyMatchOp s (rows.map MatchOp.insertRow) = s ++ rows := by
  induction rows with
  | nil => intro s; simp
  | cons r rows ih =>
    intro s
    show List.foldl applyMatchOp (s ++ [r]) (rows.map MatchOp.insertRow) = _
    rw [ih (s ++ [r]), List.append_assoc]
    rfl

theorem applyMatchTxns_insertBatches (bs : List (List MatchRow)) :
    ∀ prior, applyMatchTxns prior (bs.map fun b => [MatchOp.insertRows b]) =
      prior ++ bs.flatten := by
  induction bs with
  | nil => intro prior; simp [applyMatchTxns]
  | cons b bs ih =>
    intro prior
    show applyMatchTxns (prior ++ b) (bs.map fun b => [MatchOp.insertRows b]) = _
    rw [ih (prior ++ b), List.flatten_cons, List.append_assoc]

/-- Claim C8 (amended): the on-demand refine path replaces a client's rows
atomically — within the single refine transaction the delete-then-insert for
a client turns any state `s` into `s` minus that client's rows plus exactly
the new rows, preserving every other client's rows; the batch matcher
`executar_matching`, however, truncates ALL `bdgd_cnpj_matches` rows in its
own committed transaction BEFORE computing any score, and each committed
prefix then holds only the batches inserted so far. -/
theorem c8_amended_refine_atomic_replace_matcher_truncates :
    (∀ (s : List MatchRow) (cid : Str) (rows : List MatchRow),
      applyMatchTxn s (refineTxn [(cid, rows)]) =
        (s.filter fun r => decide (r.cliente ≠ cid)) ++ rows) ∧
    (∀ (batches : List (List MatchRow)) (prior : List MatchRow) (k : ℕ),
      (executarMatchingTxns batches).head? = some [MatchOp.truncateAll] ∧
      applyMatchTxns prior ((executarMatchingTxns batches).take (1 + k)) =
        ((batches.take k).flatten)) := by
  constructor
  · intro s cid rows
    have htxn : refineTxn [(cid, rows)] = refineClienteOps cid rows := by
      unfold refineTxn
      simp
    unfold applyMatchTxn
    rw [htxn]
    show List.foldl applyMatchOp (s.filter fun r => decide (r.cliente ≠ cid))
      (rows.map MatchOp.insertRow) = _
    exact foldl_insertRow rows _
  · intro batches prior k
    refine ⟨rfl, ?_⟩
    unfold executarMatchingTxns
    rw [Nat.add_comm 1 k, List.take_succ_cons]
    show applyMatchTxns [] ((batches.map fun b => [MatchOp.insertRows b]).take k) = _
    rw [← List.map_take, applyMatchTxns_insertBatches, List.nil_append]

/-- A prior match row for client `"X"` and the row a new run would score. -/
def priorMatchRow : MatchRow := ⟨"X".toList, "00000000000001".toList, 1, 80⟩

def newMatchRow : MatchRow := ⟨"X".toList, "00000000000002".toList, 1, 90⟩

/-- Claim C8 counterexample: in the batch matcher the FIRST committed
transaction is the global truncate, issued before any score is computed, so
after it client `"X"`'s prior rows are gone while its new score set only
appears in a later transaction: prior `MatchResult` rows are NOT preserved
until the new set is ready. -/
theorem c8_batch_matcher_truncates_first :
    applyMatchTxns [priorMatchRow] ((executarMatchingTxns [[newMatchRow]]).take 1) = [] ∧
    applyMatchTxns [priorMatchRow] (executarMatchingTxns [[newMatchRow]]) = [newMatchRow] ∧
    (executarMatchingTxns [[newMatchRow]]).take 1 ≠ executarMatchingTxns [[newMatchRow]] := by
  refine ⟨rfl, rfl, ?_⟩
  intro h
  exact absurd (congrArg List.length h) (by decide)

-- ## Geocode step-4 loop of `refine_clientes` (claim C6)

/-- The address fields parsed out of a reverse-geocoding response. -/
structure GeoFields where
  logradouro : Option Str
  numero : Option Str
  bairro : Option Str
  cep : Option Str
  municipio : Option Str
  uf : Option Str
deriving DecidableEq, Repr

/-- The dictionary returned by `_reverse_geocode`: either a success with
parsed fields or `{"status": "error", ...}` (HTTP failures, Nominatim error
payloads and exceptions all land in the error branch). -/
inductive GeoResult
  | success (f : GeoFields)
  | geoError (msg : Str)
deriving DecidableEq, Repr

/-- A rounded-coordinate cache key `(lat_round, lon_round)`. -/
abbrev Coord := Str × Str

/-- One `INSERT ... ON CONFLICT (lat_round, lon_round) DO UPDATE` into
`geocode_cache`. -/
structure CacheUpsert where
  key : Coord
  fields : GeoFields
  status : Str
deriving DecidableEq, Repr

/-- The cache upserts emitted by step 4 of `refine_clientes` (lines 212–246):
the loop walks the pending buckets once and runs the upsert ONLY inside
`if geo["status"] == "success"` — an error result writes nothing. `pending`
pairs each bucket with the result its single external call returns. -/
def geocodeLoopUpserts (pending : List (Coord × GeoResult)) : List CacheUpsert :=
  pending.filterMap fun p =>
    match p.2 with
    | GeoResult.success f => some ⟨p.1, f, "success".toList⟩
    | GeoResult.geoError _ => none

/-- The external calls issued by step 4, in order: exactly one
`_reverse_geocode` call per pending bucket. -/
def geocodeLoopCalls (pending : List (Coord × GeoResult)) : List Coord :=
  pending.map Prod.fst

def coordSample : Coord := ("-23.5505".toList, "-46.6333".toList)

/-- Claim C6 counterexample: a bucket whose external call fails produces NO
cache upsert at all — in particular no row with `status = error` is written
for it, contradicting the claim that failures are upserted into the cache. -/
theorem c6_error_not_cached :
    geocodeLoopUpserts [(coordSample, GeoResult.geoError "timeout".toList)] = [] ∧
    geocodeLoopCalls [(coordSample, GeoResult.geoError "timeout".toList)] = [coordSample] :=
  ⟨rfl, rfl⟩

/-- Claim C6 (amended): within one refine operation each distinct pending
rounded-coordinate bucket triggers exactly one external call (no automatic
retry), and the cache is upserted ONLY for successful results (always with
`status = success`); a bucket whose call failed gets no cache row at all. -/
theorem c6_amended_success_only_upsert_single_call
    (pending : List (Coord × GeoResult)) (hnodup : (pending.map Prod.fst).Nodup) :
    (∀ u ∈ geocodeLoopUpserts pending,
      u.status = "success".toList ∧ (u.key, GeoResult.success u.fields) ∈ pending) ∧
    (∀ (k : Coord) (m : Str), (k, GeoResult.geoError m) ∈ pending →
      ∀ u ∈ geocodeLoopUpserts pending, u.key ≠ k) ∧
    ((geocodeLoopCalls pending).Nodup ∧
      geocodeLoopCalls pending = pending.map Prod.fst) := by
  have hmem : ∀ u ∈ geocodeLoopUpserts pending,
      u.status = "success".toList ∧ (u.key, GeoResult.success u.fields) ∈ pending := by
    intro u hu
    obtain ⟨p, hp, heq⟩ := List.mem_filterMap.mp hu
    match hres : p.2 with
    | GeoResult.success f =>
      rw [hres] at heq
      cases heq
      refine ⟨rfl, ?_⟩
      have hpair : p = (p.1, GeoResult.success f) := by
        rw [← hres]
      rw [← hpair]
      exact hp
    | GeoResult.geoError m =>
      rw [hres] at heq
      cases heq
  refine ⟨hmem, ?_, ?_⟩
  · intro k m hk u hu hku
    obtain ⟨_, hsucc⟩ := hmem u hu
    rw [hku] at hsucc
    have := List.inj_on_of_nodup_map hnodup hk hsucc rfl
    cases this
  · exact ⟨hnodup, rfl⟩

def coordSample2 : Coord := ("-23.5617".toList, "-46.6560".toList)

def geoFieldsSample : GeoFields :=
  ⟨some "AVENIDA PAULISTA".toList, some "1578".toList, some "BELA VISTA".toList,
    some "01310100".toList, some "SAO PAULO".toList, some "SP".toList⟩

def pendingSample : List (Coord × GeoResult) :=
  [(coordSample, GeoResult.geoError "timeout".toList),
   (coordSample2, GeoResult.success geoFieldsSample)]

theorem c6_amended_witness :
    (∀ u ∈ geocodeLoopUpserts pendingSample,
      u.status = "success".toList ∧ (u.key, GeoResult.success u.fields) ∈ pendingSample) ∧
    (∀ (k : Coord) (m : Str), (k, GeoResult.geoError m) ∈ pendingSample →
      ∀ u ∈ geocodeLoopUpserts pendingSample, u.key ≠ k) ∧
    ((geocodeLoopCalls pendingSample).Nodup ∧
      geocodeLoopCalls pendingSample = pendingSample.map Prod.fst) :=
  c6_amended_success_only_upsert_single_call pendingSample (by decide)
